import Mathlib

/-!
Verification development for the velocity-rate-limiter repository (Go).

The core under verification is `src/main.go`:
  * `tokenBucketLuaScript` (lines 88-121): the atomic token-bucket refill /
    consume transition executed inside Redis as a Lua script;
  * `GetClient` (lines 60-69): FNV-1a based shard routing;
  * `Allow` (lines 131-181): invocation of the script and parsing of its
    two-element result tuple;
  * `RateLimitMiddleware` (lines 218-271): the decision surface, fail-open
    policy and retry-after computation.

Numbers: the Go code works with `float64` and Lua numbers; the embedding uses
`ℚ`, the standard exact model for the real-valued token arithmetic of the
spec.  Redis serializes executions of the script per key, so a concurrent
workload on one bucket is modelled as a sequence of transitions (`runBucket`).
-/

/-- Bucket state persisted in the Redis hash: fields `tokens` and
`lastRefill` (spec: `lastRefillAt`), both real-valued. -/
structure Bucket where
  tokens : ℚ
  lastRefill : ℚ
deriving DecidableEq

/-- Result of one execution of the Lua script: the returned pair
`{allowed, tokens}` plus the bucket state written back by `HMSET`. -/
structure TransitionResult where
  allowed : Bool
  tokens : ℚ
  bucket : Bucket
deriving DecidableEq

/-- The atomic transition of `tokenBucketLuaScript` (src/main.go lines
88-121).  `stored = none` models an absent key (both `HMGET` fields nil,
so `tokens` defaults to `capacity` and `lastRefill` to `now`).  The script
refills when `elapsed > 0`, consumes when `tokens >= requested`, and
unconditionally persists the new `tokens` together with `lastRefill = now`. -/
def tokenBucketTransition (rate capacity now requested : ℚ)
    (stored : Option Bucket) : TransitionResult :=
  let tokens := (stored.map Bucket.tokens).getD capacity
  let lastRefill := (stored.map Bucket.lastRefill).getD now
  let elapsed := now - lastRefill
  let tokens := if 0 < elapsed then min capacity (tokens + elapsed * rate) else tokens
  if requested ≤ tokens then
    { allowed := true, tokens := tokens - requested,
      bucket := { tokens := tokens - requested, lastRefill := now } }
  else
    { allowed := false, tokens := tokens,
      bucket := { tokens := tokens, lastRefill := now } }

/-- Sequential execution of the script over a list of `now` timestamps
(one per call), as produced by Redis' per-key serialization of concurrent
callers.  Returns the list of allow/deny decisions in order together with
the final persisted bucket. -/
def runBucket (rate capacity requested : ℚ) : Bucket → List ℚ → List Bool × Bucket
  | b, [] => ([], b)
  | b, now :: rest =>
    let r := tokenBucketTransition rate capacity now requested (some b)
    let p := runBucket rate capacity requested r.bucket rest
    (r.allowed :: p.1, p.2)

/-- Number of granted (allowed) decisions in a decision list. -/
def grants (ds : List Bool) : ℕ := ds.count true

/-- Truncation toward zero, as performed by Go's `int(x)` conversion from
`float64` (used at src/main.go line 252 and in the `int64(v)` parse cases). -/
def truncQ (q : ℚ) : ℤ := if q < 0 then ⌈q⌉ else ⌊q⌋

/-- A value inside the reply array of `script.Run`: the Go code switches on
`int64` and `float64` and rejects any other dynamic type
(src/main.go lines 155-175). -/
inductive RedisValue where
  | int (i : ℤ)
  | num (q : ℚ)
  | other
deriving DecidableEq

/-- True when the Go type switch can extract a number from the value. -/
def RedisValue.parseable : RedisValue → Bool
  | .other => false
  | _ => true

/-- Outcome of `script.Run(...)` as observed by `Allow`: a transport or
script-execution error (`err != nil`), a reply that is not an array (the
`result.([]interface{})` cast fails), or an array of values. -/
inductive ScriptOutcome where
  | runError
  | nonArray
  | array (vals : List RedisValue)
deriving DecidableEq

/-- AllowResult (src/main.go lines 124-127). -/
structure AllowResult where
  Allowed : Bool
  Remaining : ℚ
deriving DecidableEq

def scriptRunErrMsg : String := "failed to execute rate limit script"

def badFormatErrMsg : String := "unexpected result format from Lua script"

def badAllowedErrMsg : String := "failed to parse allowed status: unexpected type"

def badRemainingErrMsg : String := "failed to parse remaining tokens: unexpected type"

/-- The parse cases of `Allow` for `resultArray[0]` (src/main.go 156-164):
`int64` taken as is, `float64` truncated by `int64(v)`. -/
def parseAllowed : RedisValue → Except String ℤ
  | .int i => .ok i
  | .num q => .ok (truncQ q)
  | .other => .error badAllowedErrMsg

/-- The parse cases of `Allow` for `resultArray[1]` (src/main.go 166-175):
`int64` widened by `float64(v)`, `float64` taken as is. -/
def parseRemaining : RedisValue → Except String ℚ
  | .int i => .ok (i : ℚ)
  | .num q => .ok q
  | .other => .error badRemainingErrMsg

/-- Allow (src/main.go lines 131-181), modelled from the script outcome on:
errors from `script.Run` and malformed replies surface as `Except.error`,
a well-formed two-element reply is turned into an `AllowResult` with
`Allowed := allowed == 1`. -/
def Allow : ScriptOutcome → Except String AllowResult
  | .runError => .error scriptRunErrMsg
  | .nonArray => .error badFormatErrMsg
  | .array vals =>
    match vals with
    | a :: b :: _ =>
      match parseAllowed a with
      | .error e => .error e
      | .ok allowed =>
        match parseRemaining b with
        | .error e => .error e
        | .ok remaining => .ok { Allowed := allowed == 1, Remaining := remaining }
    | _ => .error badFormatErrMsg

/-- True exactly when the script outcome is one `Allow` cannot turn into an
`AllowResult`: a run error, a non-array reply, fewer than two elements, or a
first or second element outside the `int64`/`float64` type switch. -/
def malformedOutcome : ScriptOutcome → Bool
  | .runError => true
  | .nonArray => true
  | .array (a :: b :: _) => !(a.parseable && b.parseable)
  | .array _ => true

/-- The `tokensNeeded` computation of the middleware deny path
(src/main.go lines 243-246), including the reset-to-1 branch taken when
`1 - remaining` is negative. -/
def tokensNeededGo (remaining : ℚ) : ℚ :=
  if 1 - remaining < 0 then 1 else 1 - remaining

/-- The retry-after computation of the middleware deny path
(src/main.go lines 243-252): `tokensNeeded / rate`, clamped below by 1.0,
then truncated by Go's `int(...)` conversion. -/
def retryAfterGo (rate remaining : ℚ) : ℤ :=
  let retryAfterSeconds := tokensNeededGo remaining / rate
  let retryAfterSeconds := if retryAfterSeconds < 1 then 1 else retryAfterSeconds
  truncQ retryAfterSeconds

/-- The decision the middleware hands to the HTTP layer: whether the request
proceeds (`c.Next()`), whether the fail-open degraded-mode log line was
emitted, and the Retry-After header value when denied. -/
structure Decision where
  allowed : Bool
  degradedLogged : Bool
  retryAfter : Option ℤ
deriving DecidableEq

/-- RateLimitMiddleware (src/main.go lines 218-271) as a function of the
script outcome: on an error from `Allow` the request is allowed with a
degraded-mode log line (fail-open, lines 226-230); otherwise the decision
follows `AllowResult.Allowed`, computing Retry-After on the deny path. -/
def RateLimitMiddleware (rate : ℚ) (s : ScriptOutcome) : Decision :=
  match Allow s with
  | .error _ => { allowed := true, degradedLogged := true, retryAfter := none }
  | .ok res =>
    if res.Allowed then
      { allowed := true, degradedLogged := false, retryAfter := none }
    else
      { allowed := false, degradedLogged := false,
        retryAfter := some (retryAfterGo rate res.Remaining) }

/-- FNV-1a 32-bit over a byte sequence, as computed by `hash/fnv`'s
`New32a`/`Write`/`Sum32`: start from offset basis 2166136261 and for each
byte XOR it in and multiply by the prime 16777619 modulo 2^32. -/
def fnv1a32 (bytes : List ℕ) : ℕ :=
  bytes.foldl (fun h b => ((h ^^^ b) * 16777619) % 4294967296) 2166136261

/-- GetClient (src/main.go lines 60-69), reduced to the selected index:
`int(hashValue) % len(rsm.shards)`.  Go's `int` is 64-bit here, so the
`uint32` hash stays nonnegative, and Go's truncated `%` agrees with the
Euclidean `%` used below because both operands are nonnegative. -/
def GetClient (userID : List ℕ) (shardCount : ℕ) : ℤ :=
  (fnv1a32 userID : ℤ) % (shardCount : ℤ)

/-! ## Helper lemmas about a single transition -/

/-- Unfolding of the transition for a present key, with the refill value
named. -/
theorem tb_some_eq (rate capacity now requested t l : ℚ) :
    tokenBucketTransition rate capacity now requested (some ⟨t, l⟩)
      = (let refilled := if 0 < now - l then min capacity (t + (now - l) * rate) else t
         if requested ≤ refilled then
           ⟨true, refilled - requested, ⟨refilled - requested, now⟩⟩
         else ⟨false, refilled, ⟨refilled, now⟩⟩) := rfl


/-- The script persists exactly the returned token count, and always stamps
`lastRefill := now`. -/
theorem tb_bucket_fields (rate capacity now requested t l : ℚ) :
    (tokenBucketTransition rate capacity now requested (some ⟨t, l⟩)).bucket.tokens
      = (tokenBucketTransition rate capacity now requested (some ⟨t, l⟩)).tokens ∧
    (tokenBucketTransition rate capacity now requested (some ⟨t, l⟩)).bucket.lastRefill
      = now := by
  rw [tb_some_eq]
  dsimp only
  split <;> split <;> exact ⟨rfl, rfl⟩

/-- A transition never drives the token count negative. -/
theorem tb_tokens_nonneg (rate capacity now requested t l : ℚ)
    (hr : 0 ≤ rate) (hc : 0 ≤ capacity) (h0 : 0 ≤ t) :
    0 ≤ (tokenBucketTransition rate capacity now requested (some ⟨t, l⟩)).tokens := by
  rw [tb_some_eq]
  dsimp only
  split
  · rename_i he
    split
    · rename_i h
      exact sub_nonneg.mpr h
    · exact le_min hc (by nlinarith)
  · split
    · rename_i h
      exact sub_nonneg.mpr h
    · exact h0

/-- A transition never drives the token count above capacity. -/
theorem tb_tokens_le_cap (rate capacity now requested t l : ℚ)
    (hreq : 0 ≤ requested) (hcap : t ≤ capacity) :
    (tokenBucketTransition rate capacity now requested (some ⟨t, l⟩)).tokens ≤ capacity := by
  rw [tb_some_eq]
  dsimp only
  split
  · have hre : min capacity (t + (now - l) * rate) ≤ capacity := min_le_left _ _
    split
    · dsimp only
      linarith
    · exact hre
  · split
    · dsimp only
      linarith
    · exact hcap

/-- One-step telescoping bound: what a single call grants plus what it leaves
behind is covered by the previous balance plus the refill the elapsed time
allows (forward-moving clock). -/
theorem tb_step_bounds (rate capacity now requested t l : ℚ)
    (hr : 0 ≤ rate) (hlr : l ≤ now) :
    ((tokenBucketTransition rate capacity now requested (some ⟨t, l⟩)).allowed = true →
      requested + (tokenBucketTransition rate capacity now requested (some ⟨t, l⟩)).tokens
        ≤ t + rate * (now - l)) ∧
    ((tokenBucketTransition rate capacity now requested (some ⟨t, l⟩)).allowed = false →
      (tokenBucketTransition rate capacity now requested (some ⟨t, l⟩)).tokens
        ≤ t + rate * (now - l)) := by
  rw [tb_some_eq]
  dsimp only
  split
  · have hre : min capacity (t + (now - l) * rate) ≤ t + rate * (now - l) := by
      calc min capacity (t + (now - l) * rate) ≤ t + (now - l) * rate := min_le_right _ _
        _ = t + rate * (now - l) := by ring
    split
    · exact ⟨fun _ => by dsimp only; linarith, fun h => by simp at h⟩
    · exact ⟨fun h => by simp at h, fun _ => hre⟩
  · have hre : t ≤ t + rate * (now - l) := by
      nlinarith [mul_nonneg hr (sub_nonneg.mpr hlr)]
    split
    · exact ⟨fun _ => by dsimp only; linarith, fun h => by simp at h⟩
    · exact ⟨fun h => by simp at h, fun _ => hre⟩

/-- One-step capacity bound: a call on a bucket within capacity grants plus
leaves at most `capacity`, whatever the elapsed time. -/
theorem tb_step_cap (rate capacity now requested t l : ℚ)
    (hcap : t ≤ capacity) :
    ((tokenBucketTransition rate capacity now requested (some ⟨t, l⟩)).allowed = true →
      requested + (tokenBucketTransition rate capacity now requested (some ⟨t, l⟩)).tokens
        ≤ capacity) ∧
    ((tokenBucketTransition rate capacity now requested (some ⟨t, l⟩)).allowed = false →
      (tokenBucketTransition rate capacity now requested (some ⟨t, l⟩)).tokens ≤ capacity) := by
  rw [tb_some_eq]
  dsimp only
  split
  · have hre : min capacity (t + (now - l) * rate) ≤ capacity := min_le_left _ _
    split
    · exact ⟨fun _ => by dsimp only; linarith, fun h => by simp at h⟩
    · exact ⟨fun h => by simp at h, fun _ => hre⟩
  · split
    · exact ⟨fun _ => by dsimp only; linarith, fun h => by simp at h⟩
    · exact ⟨fun h => by simp at h, fun _ => hcap⟩

/-- With `now` equal to the stored `lastRefill` the refill step is a no-op
and the transition is pure consume. -/
theorem tb_no_elapse (rate capacity requested : ℚ) (m l : ℚ) :
    tokenBucketTransition rate capacity l requested (some ⟨m, l⟩)
      = if requested ≤ m then ⟨true, m - requested, ⟨m - requested, l⟩⟩
        else ⟨false, m, ⟨m, l⟩⟩ := by
  rw [tb_some_eq]
  dsimp only
  simp

/-- On a bucket already at capacity the refill step is a no-op for any
`now`, because the refill caps at `capacity`. -/
theorem tb_full (rate capacity now requested l : ℚ) (hr : 0 ≤ rate) :
    tokenBucketTransition rate capacity now requested (some ⟨capacity, l⟩)
      = if requested ≤ capacity
        then ⟨true, capacity - requested, ⟨capacity - requested, now⟩⟩
        else ⟨false, capacity, ⟨capacity, now⟩⟩ := by
  rw [tb_some_eq]
  dsimp only
  have hcc : (if 0 < now - l then min capacity (capacity + (now - l) * rate) else capacity)
      = capacity := by
    split
    · exact min_eq_left (by nlinarith)
    · rfl
  rw [hcc]

/-- Unfolding of one step of the sequential run. -/
theorem runBucket_cons (rate capacity requested : ℚ) (b : Bucket) (now : ℚ) (ts : List ℚ) :
    runBucket rate capacity requested b (now :: ts)
      = ((tokenBucketTransition rate capacity now requested (some b)).allowed
           :: (runBucket rate capacity requested
                 (tokenBucketTransition rate capacity now requested (some b)).bucket ts).1,
         (runBucket rate capacity requested
            (tokenBucketTransition rate capacity now requested (some b)).bucket ts).2) := rfl

/-- A decision list splits into its denied and granted counts. -/
theorem count_false_add_count_true (ds : List Bool) :
    ds.count false + ds.count true = ds.length := by
  induction ds with
  | nil => rfl
  | cons d ds ih => cases d <;> simp [List.count_cons] <;> omega

/-- A concrete denied call: empty bucket, no elapsed time. -/
theorem tokenBucket_denied_example :
    (tokenBucketTransition 5 10 0 1 (some ⟨0, 0⟩)).allowed = false := by
  norm_num [tokenBucketTransition]

/-- A denied transition leaves the returned token count below the requested
amount. -/
theorem tb_denied_tokens (rate capacity now requested : ℚ) (stored : Option Bucket)
    (h : (tokenBucketTransition rate capacity now requested stored).allowed = false) :
    ¬ requested ≤ (tokenBucketTransition rate capacity now requested stored).tokens := by
  revert h
  unfold tokenBucketTransition
  dsimp only
  split <;> split
  · exact fun h => by simp at h
  · rename_i hc
    exact fun _ => hc
  · exact fun h => by simp at h
  · rename_i hc
    exact fun _ => hc

/-! ## Helper lemmas about sequential runs -/

/-- Non-negativity of the stored token count is preserved along any run,
whatever the timestamps do. -/
theorem runBucket_tokens_nonneg (rate capacity requested : ℚ)
    (hr : 0 ≤ rate) (hc : 0 ≤ capacity) :
    ∀ (ts : List ℚ) (b : Bucket), 0 ≤ b.tokens →
      0 ≤ (runBucket rate capacity requested b ts).2.tokens := by
  intro ts
  induction ts with
  | nil =>
    intro b h0
    exact h0
  | cons now ts ih =>
    intro b h0
    obtain ⟨t, l⟩ := b
    rw [runBucket_cons]
    dsimp only
    apply ih
    rw [(tb_bucket_fields rate capacity now requested t l).1]
    exact tb_tokens_nonneg rate capacity now requested t l hr hc h0

/-- The capacity bound on the stored token count is preserved along any run,
whatever the timestamps do. -/
theorem runBucket_tokens_le_cap (rate capacity requested : ℚ) (hreq : 0 ≤ requested) :
    ∀ (ts : List ℚ) (b : Bucket), b.tokens ≤ capacity →
      (runBucket rate capacity requested b ts).2.tokens ≤ capacity := by
  intro ts
  induction ts with
  | nil =>
    intro b hcap
    exact hcap
  | cons now ts ih =>
    intro b hcap
    obtain ⟨t, l⟩ := b
    rw [runBucket_cons]
    dsimp only
    apply ih
    rw [(tb_bucket_fields rate capacity now requested t l).1]
    exact tb_tokens_le_cap rate capacity now requested t l hreq hcap

/-- Consuming a monotone chain of timestamps leaves the run's final
`lastRefill` still chained below the remaining timestamps. -/
theorem runBucket_chain (rate capacity requested : ℚ) :
    ∀ (pre : List ℚ) (b : Bucket) (rest : List ℚ),
      List.Chain (· ≤ ·) b.lastRefill (pre ++ rest) →
      List.Chain (· ≤ ·) (runBucket rate capacity requested b pre).2.lastRefill rest := by
  intro pre
  induction pre with
  | nil =>
    intro b rest h
    exact h
  | cons p pre ih =>
    intro b rest h
    obtain ⟨t, l⟩ := b
    rw [runBucket_cons]
    dsimp only
    apply ih
    rw [(tb_bucket_fields rate capacity p requested t l).2]
    exact (List.chain_cons.mp h).2

/-- Telescoping bound along a run with nondecreasing timestamps: the total
amount granted plus the final balance is covered by the initial balance plus
the refill allowed by the total elapsed time. -/
theorem runBucket_telescope (rate capacity requested : ℚ) (hr : 0 ≤ rate) :
    ∀ (ts : List ℚ) (b : Bucket),
      List.Chain (· ≤ ·) b.lastRefill ts →
      ((runBucket rate capacity requested b ts).1.count true : ℚ) * requested
          + (runBucket rate capacity requested b ts).2.tokens
        ≤ b.tokens
            + rate * ((runBucket rate capacity requested b ts).2.lastRefill - b.lastRefill) := by
  intro ts
  induction ts with
  | nil =>
    intro b _
    simp [runBucket]
  | cons now ts ih =>
    intro b h
    obtain ⟨t, l⟩ := b
    obtain ⟨hln, hrest⟩ := List.chain_cons.mp h
    rw [runBucket_cons]
    dsimp only
    have hbf := tb_bucket_fields rate capacity now requested t l
    have hstep := tb_step_bounds rate capacity now requested t l hr hln
    have hih := ih (tokenBucketTransition rate capacity now requested (some ⟨t, l⟩)).bucket
      (by rw [hbf.2]; exact hrest)
    rw [hbf.1, hbf.2] at hih
    have hexp : rate
        * ((runBucket rate capacity requested
              (tokenBucketTransition rate capacity now requested (some ⟨t, l⟩)).bucket
              ts).2.lastRefill - l)
      = rate
          * ((runBucket rate capacity requested
                (tokenBucketTransition rate capacity now requested (some ⟨t, l⟩)).bucket
                ts).2.lastRefill - now)
        + rate * (now - l) := by ring
    rw [List.count_cons]
    cases hA : (tokenBucketTransition rate capacity now requested (some ⟨t, l⟩)).allowed
    · have hs := hstep.2 hA
      norm_num
      linarith
    · have hs := hstep.1 hA
      norm_num
      linarith

/-! ## Claim theorems -/

/-- C1: on a stored bucket `(t, l)` with `requested = 1`, the atomic
transition first refills (when `now - l > 0` the balance becomes
`min(capacity, t + (now - l) * rate)`, otherwise it is unchanged), then
allows exactly when the refilled balance covers the request, subtracting
the request exactly when allowed and leaving the balance unchanged by the
consume step when denied, and finally persists the resulting balance
together with `lastRefill = now` unconditionally (also on denial),
returning the pair `(allowed, tokens)`. -/
theorem tokenBucket_refill_consume_persist (rate capacity now t l : ℚ)
    (hr : 0 < rate) (hc : 0 < capacity) :
    ((tokenBucketTransition rate capacity now 1 (some ⟨t, l⟩)).allowed = true
        ↔ 1 ≤ (if 0 < now - l then min capacity (t + (now - l) * rate) else t)) ∧
    (tokenBucketTransition rate capacity now 1 (some ⟨t, l⟩)).tokens
        = (if 1 ≤ (if 0 < now - l then min capacity (t + (now - l) * rate) else t)
           then (if 0 < now - l then min capacity (t + (now - l) * rate) else t) - 1
           else (if 0 < now - l then min capacity (t + (now - l) * rate) else t)) ∧
    (tokenBucketTransition rate capacity now 1 (some ⟨t, l⟩)).bucket.tokens
        = (tokenBucketTransition rate capacity now 1 (some ⟨t, l⟩)).tokens ∧
    (tokenBucketTransition rate capacity now 1 (some ⟨t, l⟩)).bucket.lastRefill = now := by
  refine ⟨?_, ?_, (tb_bucket_fields _ _ _ _ _ _).1, (tb_bucket_fields _ _ _ _ _ _).2⟩
  · rw [tb_some_eq]
    dsimp only
    split <;> split <;> rename_i hB <;> simp [hB]
  · rw [tb_some_eq]
    dsimp only
    split <;> split <;> rename_i hB <;> simp [hB]

/-- C1 witness: concrete instance rate 5, capacity 10, stored bucket (3, 0),
call at now = 2. -/
theorem tokenBucket_refill_consume_persist_witness :
    (0:ℚ) < 5 ∧ (0:ℚ) < 10 ∧
    (((tokenBucketTransition 5 10 2 1 (some ⟨3, 0⟩)).allowed = true
        ↔ 1 ≤ (if 0 < (2:ℚ) - 0 then min 10 (3 + ((2:ℚ) - 0) * 5) else 3)) ∧
     (tokenBucketTransition 5 10 2 1 (some ⟨3, 0⟩)).tokens
        = (if 1 ≤ (if 0 < (2:ℚ) - 0 then min 10 (3 + ((2:ℚ) - 0) * 5) else 3)
           then (if 0 < (2:ℚ) - 0 then min 10 (3 + ((2:ℚ) - 0) * 5) else 3) - 1
           else (if 0 < (2:ℚ) - 0 then min 10 (3 + ((2:ℚ) - 0) * 5) else 3)) ∧
     (tokenBucketTransition 5 10 2 1 (some ⟨3, 0⟩)).bucket.tokens
        = (tokenBucketTransition 5 10 2 1 (some ⟨3, 0⟩)).tokens ∧
     (tokenBucketTransition 5 10 2 1 (some ⟨3, 0⟩)).bucket.lastRefill = 2) :=
  ⟨by decide, by decide,
    tokenBucket_refill_consume_persist 5 10 2 3 0 (by decide) (by decide)⟩

/-- C3: a transition started from a state with `0 ≤ tokens ≤ capacity`
returns and persists a token count that is again within `[0, capacity]`. -/
theorem tokens_within_bounds_preserved (rate capacity now t l : ℚ)
    (hr : 0 < rate) (hc : 0 < capacity) (h0 : 0 ≤ t) (hcap : t ≤ capacity) :
    (0 ≤ (tokenBucketTransition rate capacity now 1 (some ⟨t, l⟩)).tokens ∧
     (tokenBucketTransition rate capacity now 1 (some ⟨t, l⟩)).tokens ≤ capacity) ∧
    (0 ≤ (tokenBucketTransition rate capacity now 1 (some ⟨t, l⟩)).bucket.tokens ∧
     (tokenBucketTransition rate capacity now 1 (some ⟨t, l⟩)).bucket.tokens ≤ capacity) := by
  have h1 := tb_tokens_nonneg rate capacity now 1 t l (le_of_lt hr) (le_of_lt hc) h0
  have h2 := tb_tokens_le_cap rate capacity now 1 t l (by norm_num) hcap
  have hb := (tb_bucket_fields rate capacity now 1 t l).1
  exact ⟨⟨h1, h2⟩, ⟨hb ▸ h1, hb ▸ h2⟩⟩

/-- C3 witness: concrete instance rate 5, capacity 10, stored bucket (3, 0),
call at now = 7. -/
theorem tokens_within_bounds_preserved_witness :
    (0:ℚ) < 5 ∧ (0:ℚ) < 10 ∧ (0:ℚ) ≤ 3 ∧ (3:ℚ) ≤ 10 ∧
    ((0 ≤ (tokenBucketTransition 5 10 7 1 (some ⟨3, 0⟩)).tokens ∧
      (tokenBucketTransition 5 10 7 1 (some ⟨3, 0⟩)).tokens ≤ 10) ∧
     (0 ≤ (tokenBucketTransition 5 10 7 1 (some ⟨3, 0⟩)).bucket.tokens ∧
      (tokenBucketTransition 5 10 7 1 (some ⟨3, 0⟩)).bucket.tokens ≤ 10)) :=
  ⟨by decide, by decide, by decide, by decide,
    tokens_within_bounds_preserved 5 10 7 3 0 (by decide) (by decide) (by decide) (by decide)⟩

/-- C6: a call whose `now` is earlier than the stored `lastRefill` skips the
refill step entirely: the resulting balance is exactly what the consume step
alone yields, the call is allowed exactly when the old balance covers the
request, and a denied call leaves the balance unchanged.  (The transition is
a total function of its inputs, so no error is raised.) -/
theorem clock_skew_tolerance (rate capacity now t l : ℚ) (hskew : now < l) :
    ((tokenBucketTransition rate capacity now 1 (some ⟨t, l⟩)).tokens
        = if 1 ≤ t then t - 1 else t) ∧
    ((tokenBucketTransition rate capacity now 1 (some ⟨t, l⟩)).allowed = true ↔ 1 ≤ t) ∧
    ((tokenBucketTransition rate capacity now 1 (some ⟨t, l⟩)).allowed = false →
      (tokenBucketTransition rate capacity now 1 (some ⟨t, l⟩)).tokens = t) := by
  have hne : ¬ (0 < now - l) := by linarith
  rw [tb_some_eq]
  dsimp only
  rw [if_neg hne]
  split
  · rename_i h
    exact ⟨rfl, by simp [h], fun hh => by simp at hh⟩
  · rename_i h
    exact ⟨rfl, by simp [h], fun _ => rfl⟩

/-- C6 witness: concrete instance with the stored timestamp 5 ahead of the
call timestamp 3. -/
theorem clock_skew_tolerance_witness :
    (3:ℚ) < 5 ∧
    (((tokenBucketTransition 5 10 3 1 (some ⟨3, 5⟩)).tokens
        = if 1 ≤ (3:ℚ) then (3:ℚ) - 1 else 3) ∧
     ((tokenBucketTransition 5 10 3 1 (some ⟨3, 5⟩)).allowed = true ↔ 1 ≤ (3:ℚ)) ∧
     ((tokenBucketTransition 5 10 3 1 (some ⟨3, 5⟩)).allowed = false →
       (tokenBucketTransition 5 10 3 1 (some ⟨3, 5⟩)).tokens = 3)) :=
  ⟨by decide, clock_skew_tolerance 5 10 3 3 5 (by decide)⟩

/-- C10: a denied transition with `requested = 1` returns a balance strictly
below 1, so the middleware's `tokensNeeded = 1 - remaining` is strictly
positive and its reset-to-1 branch for negative `tokensNeeded` is not
taken. -/
theorem denied_remaining_below_requested (rate capacity now : ℚ) (stored : Option Bucket)
    (hden : (tokenBucketTransition rate capacity now 1 stored).allowed = false) :
    (tokenBucketTransition rate capacity now 1 stored).tokens < 1 ∧
    0 < 1 - (tokenBucketTransition rate capacity now 1 stored).tokens ∧
    tokensNeededGo (tokenBucketTransition rate capacity now 1 stored).tokens
      = 1 - (tokenBucketTransition rate capacity now 1 stored).tokens := by
  have h := tb_denied_tokens rate capacity now 1 stored hden
  have h1 : (tokenBucketTransition rate capacity now 1 stored).tokens < 1 := not_le.mp h
  refine ⟨h1, by linarith, ?_⟩
  unfold tokensNeededGo
  rw [if_neg (by linarith)]

/-- C10 witness: the concrete denied call on an empty bucket. -/
theorem denied_remaining_below_requested_witness :
    (tokenBucketTransition 5 10 0 1 (some ⟨0, 0⟩)).allowed = false ∧
    ((tokenBucketTransition 5 10 0 1 (some ⟨0, 0⟩)).tokens < 1 ∧
     0 < 1 - (tokenBucketTransition 5 10 0 1 (some ⟨0, 0⟩)).tokens ∧
     tokensNeededGo (tokenBucketTransition 5 10 0 1 (some ⟨0, 0⟩)).tokens
       = 1 - (tokenBucketTransition 5 10 0 1 (some ⟨0, 0⟩)).tokens) :=
  ⟨tokenBucket_denied_example,
    denied_remaining_below_requested 5 10 0 (some ⟨0, 0⟩) tokenBucket_denied_example⟩

/-- C7: for a fixed non-empty topology of `shardCount` shards, the selected
index is the FNV-1a 32-bit hash of the identity's bytes reduced modulo the
shard count, lies in `[0, shardCount)`, and is 0 whenever `shardCount = 1`.
Determinism is definitional here: `GetClient` is a pure function of the
identity bytes and the topology size alone. -/
theorem getClient_shard_selection (userID : List ℕ) (shardCount : ℕ)
    (hN : 0 < shardCount) :
    GetClient userID shardCount = ((fnv1a32 userID % shardCount : ℕ) : ℤ) ∧
    0 ≤ GetClient userID shardCount ∧
    GetClient userID shardCount < (shardCount : ℤ) ∧
    (shardCount = 1 → GetClient userID shardCount = 0) := by
  have hNz : (shardCount : ℤ) ≠ 0 := by exact_mod_cast hN.ne'
  refine ⟨?_, ?_, ?_, ?_⟩
  · unfold GetClient
    push_cast
    rfl
  · exact Int.emod_nonneg _ hNz
  · exact Int.emod_lt_of_pos _ (by exact_mod_cast hN)
  · intro h1
    subst h1
    unfold GetClient
    simp

/-- C7 witness: the two-byte identity [104, 105] on the degenerate
single-shard topology. -/
theorem getClient_shard_selection_witness :
    0 < 1 ∧
    (GetClient [104, 105] 1 = ((fnv1a32 [104, 105] % 1 : ℕ) : ℤ) ∧
     0 ≤ GetClient [104, 105] 1 ∧
     GetClient [104, 105] 1 < ((1 : ℕ) : ℤ) ∧
     ((1 : ℕ) = 1 → GetClient [104, 105] 1 = 0)) :=
  ⟨by decide, getClient_shard_selection [104, 105] 1 (by decide)⟩

/-- C9: whenever the script outcome is one the Go `Allow` cannot parse into
its documented two-element tuple shape (run error, non-array reply, short
array, or an element outside the `int64`/`float64` switch), `Allow` surfaces
an error value — never a fabricated success — and the middleware applies the
fail-open policy: the request is allowed, the degraded-mode log line is
emitted, and no error propagates to the HTTP caller (the middleware's result
is an ordinary `Decision`). -/
theorem fail_open_on_transition_failure (rate : ℚ) (s : ScriptOutcome)
    (h : malformedOutcome s = true) :
    (∃ msg, Allow s = Except.error msg) ∧
    (RateLimitMiddleware rate s).allowed = true ∧
    (RateLimitMiddleware rate s).degradedLogged = true := by
  have herr : ∃ msg, Allow s = Except.error msg := by
    cases s with
    | runError => exact ⟨_, rfl⟩
    | nonArray => exact ⟨_, rfl⟩
    | array vals =>
      cases vals with
      | nil => exact ⟨_, rfl⟩
      | cons a tail =>
        cases tail with
        | nil => exact ⟨_, rfl⟩
        | cons b rest =>
          cases a <;> cases b <;>
            simp_all [Allow, parseAllowed, parseRemaining, malformedOutcome,
              RedisValue.parseable]
  obtain ⟨msg, hmsg⟩ := herr
  refine ⟨⟨msg, hmsg⟩, ?_, ?_⟩ <;>
    · unfold RateLimitMiddleware
      rw [hmsg]

/-- C9 witness: the store-unreachable outcome. -/
theorem fail_open_on_transition_failure_witness :
    malformedOutcome ScriptOutcome.runError = true ∧
    ((∃ msg, Allow ScriptOutcome.runError = Except.error msg) ∧
     (RateLimitMiddleware 5 ScriptOutcome.runError).allowed = true ∧
     (RateLimitMiddleware 5 ScriptOutcome.runError).degradedLogged = true) :=
  ⟨by decide, fail_open_on_transition_failure 5 ScriptOutcome.runError (by decide)⟩

/-- C5 counterexample: at rate 2/5 and remaining 0 (a denied decision), the
middleware computes Retry-After 2 via Go's truncating `int(...)` conversion,
while `max(1, ceil((requested - remaining) / rate))` is 3, so the claimed
formula does not match the code. -/
theorem retry_after_ceil_counterexample :
    retryAfterGo (2/5) 0 = 2 ∧
    (max 1 ⌈((1:ℚ) - 0) / (2/5)⌉ : ℤ) = 3 ∧
    retryAfterGo (2/5) 0 ≠ max 1 ⌈((1:ℚ) - 0) / (2/5)⌉ := by
  have h1 : retryAfterGo (2/5) 0 = 2 := by
    norm_num [retryAfterGo, tokensNeededGo, truncQ]
  have h2 : (max 1 ⌈((1:ℚ) - 0) / (2/5)⌉ : ℤ) = 3 := by
    norm_num [Int.ceil_eq_iff]
  refine ⟨h1, h2, ?_⟩
  rw [h1, h2]
  decide

/-- C5 amended: for a denied decision (`remaining < 1`, see C10) with
`rate > 0` and `requested = 1`, the Retry-After value equals
`max(1, (requested - remaining) / rate)` truncated to an integer (a floor,
since the clamped value is at least 1), and it is at least 1, hence never
negative.  The difference from the original claim is truncation in place of
`ceil`. -/
theorem retry_after_denied (rate remaining : ℚ) (hr : 0 < rate) (hrem : remaining < 1) :
    retryAfterGo rate remaining = ⌊max 1 ((1 - remaining) / rate)⌋ ∧
    1 ≤ retryAfterGo rate remaining ∧ 0 ≤ retryAfterGo rate remaining := by
  have ht : tokensNeededGo remaining = 1 - remaining := by
    unfold tokensNeededGo
    rw [if_neg (by linarith)]
  have hone : (1:ℤ) ≤ ⌊max (1:ℚ) ((1 - remaining) / rate)⌋ := by
    rw [Int.le_floor]
    push_cast
    exact le_max_left _ _
  have hmax : (if (1 - remaining) / rate < 1 then (1:ℚ) else (1 - remaining) / rate)
      = max 1 ((1 - remaining) / rate) := by
    split
    · rename_i h
      exact (max_eq_left (le_of_lt h)).symm
    · rename_i h
      exact (max_eq_right (not_lt.mp h)).symm
  have hnn : ¬ (max (1:ℚ) ((1 - remaining) / rate) < 0) :=
    not_lt.mpr (le_trans (by norm_num) (le_max_left 1 _))
  unfold retryAfterGo truncQ
  dsimp only
  rw [ht, hmax, if_neg hnn]
  exact ⟨rfl, hone, le_trans (by norm_num) hone⟩

/-- C5 witness: concrete denied decision with rate 5 and remaining 0. -/
theorem retry_after_denied_witness :
    (0:ℚ) < 5 ∧ (0:ℚ) < 1 ∧
    (retryAfterGo 5 0 = ⌊max 1 (((1:ℚ) - 0) / 5)⌋ ∧
     1 ≤ retryAfterGo 5 0 ∧ 0 ≤ retryAfterGo 5 0) :=
  ⟨by decide, by decide, retry_after_denied 5 0 (by decide) (by decide)⟩

/-- Pure-consume run: when every call carries the stored timestamp, a bucket
holding a whole number `m` of tokens grants exactly `min n m` of `n` calls
(capacity is irrelevant because the refill step never fires). -/
theorem runBucket_replicate_same (rate capacity : ℚ) (l : ℚ) :
    ∀ (n m : ℕ),
      (runBucket rate capacity 1 ⟨(m : ℚ), l⟩ (List.replicate n l)).1.count true = min n m ∧
      (runBucket rate capacity 1 ⟨(m : ℚ), l⟩ (List.replicate n l)).1.length = n := by
  intro n
  induction n with
  | zero =>
    intro m
    constructor <;> simp [runBucket]
  | succ n ih =>
    intro m
    rw [List.replicate_succ, runBucket_cons, tb_no_elapse]
    cases m with
    | zero =>
      rw [if_neg (by norm_num)]
      dsimp only
      rw [List.count_cons]
      have h1 := (ih 0).1
      have h2 := (ih 0).2
      constructor
      · simpa using h1
      · simpa using h2
    | succ k =>
      have hk : (1:ℚ) ≤ ((k + 1 : ℕ) : ℚ) := by exact_mod_cast Nat.succ_le_succ (Nat.zero_le k)
      rw [if_pos hk]
      dsimp only
      have hcast : ((k + 1 : ℕ) : ℚ) - 1 = ((k : ℕ) : ℚ) := by push_cast; ring
      rw [hcast]
      have h1 := (ih k).1
      have h2 := (ih k).2
      rw [List.count_cons]
      constructor
      · simp only [h1]
        norm_num
        omega
      · simp [h2]

/-- C2: Redis serializes executions of the atomic script on one key, so N
fully concurrent calls on one identity are some sequence of N transitions;
with refill negligible over the test window (modelled exactly: all N calls
carry one shared timestamp, so after the first call the elapsed time is 0
and, the bucket starting full, the first refill is also a no-op), a bucket
of integer capacity C ≤ N grants exactly C of the N calls and denies the
other N - C, for every rate and every position of the shared timestamp —
in particular capacity 10 with 100 callers gives exactly 10 grants. -/
theorem concurrent_full_bucket_exact_grants (rate l now : ℚ) (C N : ℕ)
    (hr : 0 < rate) (hC : 0 < C) (hCN : C ≤ N) :
    (runBucket rate (C : ℚ) 1 ⟨(C : ℚ), l⟩ (List.replicate N now)).1.count true = C ∧
    (runBucket rate (C : ℚ) 1 ⟨(C : ℚ), l⟩ (List.replicate N now)).1.count false = N - C := by
  obtain ⟨N', rfl⟩ : ∃ N', N = N' + 1 :=
    ⟨N - 1, (Nat.succ_pred_eq_of_pos (lt_of_lt_of_le hC hCN)).symm⟩
  obtain ⟨C', rfl⟩ : ∃ C', C = C' + 1 := ⟨C - 1, (Nat.succ_pred_eq_of_pos hC).symm⟩
  rw [List.replicate_succ, runBucket_cons, tb_full _ _ _ _ _ (le_of_lt hr)]
  have h1 : (1:ℚ) ≤ ((C' + 1 : ℕ) : ℚ) := by
    exact_mod_cast Nat.succ_le_succ (Nat.zero_le C')
  rw [if_pos h1]
  dsimp only
  have hcast : ((C' + 1 : ℕ) : ℚ) - 1 = ((C' : ℕ) : ℚ) := by push_cast; ring
  rw [hcast]
  have hrep := runBucket_replicate_same rate ((C' + 1 : ℕ) : ℚ) now N' C'
  have hful := count_false_add_count_true
    ((runBucket rate ((C' + 1 : ℕ) : ℚ) 1 ⟨((C' : ℕ) : ℚ), now⟩ (List.replicate N' now)).1)
  have ht := hrep.1
  have hlen := hrep.2
  constructor
  · rw [List.count_cons]
    push_cast at ht hlen hful ⊢
    norm_num
    omega
  · rw [List.count_cons]
    push_cast at ht hlen hful ⊢
    norm_num
    omega

/-- C2 witness: capacity 10, rate 1000, 100 serialized concurrent calls on
one identity starting from a full bucket — exactly 10 allowed, 90 denied. -/
theorem concurrent_full_bucket_exact_grants_witness :
    0 < 1000 ∧ 0 < 10 ∧ 10 ≤ 100 ∧
    ((runBucket 1000 ((10 : ℕ) : ℚ) 1 ⟨((10 : ℕ) : ℚ), 0⟩
        (List.replicate 100 0)).1.count true = 10 ∧
     (runBucket 1000 ((10 : ℕ) : ℚ) 1 ⟨((10 : ℕ) : ℚ), 0⟩
        (List.replicate 100 0)).1.count false = 100 - 10) :=
  ⟨by decide, by decide, by decide,
    concurrent_full_bucket_exact_grants 1000 0 0 10 100 (by decide) (by decide) (by decide)⟩

/-- C4: with capacity 10 and rate 5, a fresh full bucket is drained to 0 by
10 successive allowed transitions at a common timestamp `t0` (the 10
grants leave `(0, t0)` persisted), and after the timestamp advances by
exactly 1.0 second, exactly the first 5 of 6 further sequential calls are
allowed and the 6th is denied. -/
theorem refill_accuracy (t0 : ℚ) :
    (runBucket 5 10 1 ⟨10, t0⟩ (List.replicate 10 t0)).1 = List.replicate 10 true ∧
    (runBucket 5 10 1 ⟨10, t0⟩ (List.replicate 10 t0)).2 = ⟨0, t0⟩ ∧
    (runBucket 5 10 1 ⟨0, t0⟩ (List.replicate 6 (t0 + 1))).1
      = [true, true, true, true, true, false] := by
  norm_num [runBucket, tokenBucketTransition, List.replicate]

/-- C8 counterexample: the original claim also ranges over traces whose
`now` arguments are not monotone.  On capacity 1, rate 1, starting from the
full bucket `(1, 0)`, the serialized trace with timestamps `[1, 0, 1]`
grants 2 tokens, both grants carrying timestamp 1, while the denied
back-dated call in between rewinds `lastRefill` to 0; over the interval
from the first to the last timestamp of the trace segment (length
`Δt = 0`), the claimed bound `capacity + rate·Δt = 1` is exceeded. -/
theorem rate_bound_nonmonotone_counterexample :
    (runBucket 1 1 1 ⟨1, 0⟩ [1, 0, 1]).1.count true = 2 ∧
    (runBucket 1 1 1 ⟨1, 0⟩ [1, 0, 1]).2.lastRefill = 1 ∧
    ¬ (((runBucket 1 1 1 ⟨1, 0⟩ [1, 0, 1]).1.count true : ℚ)
        ≤ 1 + 1 * ((runBucket 1 1 1 ⟨1, 0⟩ [1, 0, 1]).2.lastRefill - 1)) := by
  have h : (runBucket 1 1 1 ⟨1, 0⟩ [1, 0, 1]).1 = [true, false, true] ∧
      (runBucket 1 1 1 ⟨1, 0⟩ [1, 0, 1]).2 = ⟨0, 1⟩ := by
    norm_num [runBucket, tokenBucketTransition]
  rw [h.1, h.2]
  norm_num

/-- C8 amended: (a) along every serialized trace of transitions on one
bucket — timestamps monotone or not — the persisted token count never goes
negative; (b) restricted to traces with nondecreasing `now` arguments (the
spec's stated per-caller monotonicity), over every contiguous trace segment
the number of tokens granted is at most `capacity + rate·Δt`, where `Δt` is
the distance from the segment's first timestamp to the timestamp of its
last call (the `lastRefill` the segment leaves behind).  The restriction to
monotone timestamps is what the counterexample forces: a back-dated denied
call rewinds the refill clock and lets elapsed time be counted twice. -/
theorem rate_bound_over_traces (rate capacity : ℚ) (hr : 0 < rate) (hc : 0 < capacity)
    (b : Bucket) (h0 : 0 ≤ b.tokens) (hcap : b.tokens ≤ capacity) :
    (∀ ts : List ℚ, 0 ≤ (runBucket rate capacity 1 b ts).2.tokens) ∧
    (∀ (pre : List ℚ) (s : ℚ) (seg : List ℚ),
      List.Chain (· ≤ ·) b.lastRefill (pre ++ s :: seg) →
      ((runBucket rate capacity 1 (runBucket rate capacity 1 b pre).2
            (s :: seg)).1.count true : ℚ)
        ≤ capacity
            + rate * ((runBucket rate capacity 1 (runBucket rate capacity 1 b pre).2
                  (s :: seg)).2.lastRefill - s)) := by
  constructor
  · intro ts
    exact runBucket_tokens_nonneg rate capacity 1 (le_of_lt hr) (le_of_lt hc) ts b h0
  · intro pre s seg hchain
    set b1 := (runBucket rate capacity 1 b pre).2 with hb1
    have hch1 : List.Chain (· ≤ ·) b1.lastRefill (s :: seg) :=
      runBucket_chain rate capacity 1 pre b (s :: seg) hchain
    obtain ⟨hls, hrest⟩ := List.chain_cons.mp hch1
    have hb10 : 0 ≤ b1.tokens :=
      runBucket_tokens_nonneg rate capacity 1 (le_of_lt hr) (le_of_lt hc) pre b h0
    have hb1c : b1.tokens ≤ capacity :=
      runBucket_tokens_le_cap rate capacity 1 (by norm_num) pre b hcap
    have heta : (⟨b1.tokens, b1.lastRefill⟩ : Bucket) = b1 := rfl
    have hstep := tb_step_cap rate capacity s 1 b1.tokens b1.lastRefill hb1c
    rw [heta] at hstep
    have hbf := tb_bucket_fields rate capacity s 1 b1.tokens b1.lastRefill
    rw [heta] at hbf
    have hnn1 := tb_tokens_nonneg rate capacity s 1 b1.tokens b1.lastRefill
      (le_of_lt hr) (le_of_lt hc) hb10
    rw [heta] at hnn1
    have htel := runBucket_telescope rate capacity 1 (le_of_lt hr) seg
      (tokenBucketTransition rate capacity s 1 (some b1)).bucket
      (by rw [hbf.2]; exact hrest)
    have hfin0 : 0 ≤ (runBucket rate capacity 1
        (tokenBucketTransition rate capacity s 1 (some b1)).bucket seg).2.tokens := by
      apply runBucket_tokens_nonneg rate capacity 1 (le_of_lt hr) (le_of_lt hc)
      rw [hbf.1]
      exact hnn1
    rw [runBucket_cons]
    dsimp only
    rw [List.count_cons]
    rw [hbf.1, hbf.2, mul_one] at htel
    cases hA : (tokenBucketTransition rate capacity s 1 (some b1)).allowed
    · have hsc := hstep.2 hA
      norm_num
      linarith
    · have hsc := hstep.1 hA
      norm_num
      linarith

/-- C8 witness: rate 1000, capacity 10, the full bucket `(10, 0)`; part (a)
instantiated on the one-call trace `[1]`, part (b) on the empty prefix and
the segment with timestamps `[0, 0]`. -/
theorem rate_bound_over_traces_witness :
    (0:ℚ) < 1000 ∧ (0:ℚ) < 10 ∧
    (0:ℚ) ≤ (Bucket.mk 10 0).tokens ∧ (Bucket.mk 10 0).tokens ≤ 10 ∧
    List.Chain (· ≤ ·) (Bucket.mk 10 0).lastRefill ([] ++ 0 :: [0]) ∧
    0 ≤ (runBucket 1000 10 1 ⟨10, 0⟩ [1]).2.tokens ∧
    (((runBucket 1000 10 1 (runBucket 1000 10 1 ⟨10, 0⟩ []).2
          (0 :: [0])).1.count true : ℚ)
      ≤ 10 + 1000 * ((runBucket 1000 10 1 (runBucket 1000 10 1 ⟨10, 0⟩ []).2
            (0 :: [0])).2.lastRefill - 0)) :=
  ⟨by decide, by decide, by decide, by decide,
    List.Chain.cons le_rfl (List.Chain.cons le_rfl List.Chain.nil),
    (rate_bound_over_traces 1000 10 (by decide) (by decide) ⟨10, 0⟩
        (by decide) (by decide)).1 [1],
    (rate_bound_over_traces 1000 10 (by decide) (by decide) ⟨10, 0⟩
        (by decide) (by decide)).2 [] 0 [0]
      (List.Chain.cons le_rfl (List.Chain.cons le_rfl List.Chain.nil))⟩
